import Mathlib

/-!
Verification of the remote execution and trust subsystem of guardian-cli.

The definitions below are a shallow embedding of the Go source:
  - the interactive relay byte scanner of `SshClient.RunCommand`
    (src/utils/ssh.go:467-495),
  - the terminal-mode maps built in `RunCommand` (ssh.go:446-449) and
    `copySshKeys` (ssh.go:255-257),
  - `RunCommand`'s mode selection and return value (ssh.go:428-502),
  - the trust-on-first-use ledger operations `knownHostContains`
    (ssh.go:142-151), `appendToKnownHosts` (ssh.go:153-167) and the host
    key callback `PromptAtKey` (ssh.go:184-209),
  - the key pair initialisation `InitSsh` (ssh.go:75-140),
  - the directory upload `PutDir` / `PutFile` (src/utils/sftp.go:14-55).

File contents, remote output and paths are modelled as `List Char`;
filesystem state is passed explicitly; the error-free file system
operations of a run are modelled on their happy path (a failing
`log.Fatal` path terminates the Go process and is out of scope).
-/

set_option maxRecDepth 100000

namespace Guardian

/-! ### Interactive relay scanner (ssh.go:467-495)

The goroutine reads the session output byte by byte.  Each byte is
appended to `output`; a newline forwards the completed `line` buffer to
the log and clears it; every other byte extends `line`, and whenever the
in-progress line starts with `"[sudo] password for "` and ends with
`": "` the registered secret followed by a newline is written to the
session input stream. -/

/-- The prompt prelude `"[sudo] password for "` tested with
`strings.HasPrefix` at ssh.go:488. -/
def sudoPromptPat : List Char := "[sudo] password for ".data

/-- The prompt tail `": "` tested with `strings.HasSuffix` at ssh.go:488. -/
def sudoPromptTailPat : List Char := ": ".data

/-- State of the relay scanner: the in-progress line buffer, all output
bytes seen, the completed lines forwarded to the log, and the strings
written to the session input stream. -/
structure ScanState where
  line : List Char
  output : List Char
  logged : List (List Char)
  injected : List (List Char)
deriving DecidableEq

/-- The scanner state before any byte is read. -/
def initScanState : ScanState := ⟨[], [], [], []⟩

/-- One iteration of the scanner loop body (ssh.go:472-494) on byte `b`,
with `pass` the registered secret (`sudoPass`). -/
def scanStep (pass : List Char) (s : ScanState) (b : Char) : ScanState :=
  let out := s.output ++ [b]
  if b = '\n' then
    { line := [], output := out, logged := s.logged ++ [s.line],
      injected := s.injected }
  else
    let line := s.line ++ [b]
    if sudoPromptPat.isPrefixOf line && sudoPromptTailPat.isSuffixOf line then
      { line := line, output := out, logged := s.logged,
        injected := s.injected ++ [pass ++ ['\n']] }
    else
      { line := line, output := out, logged := s.logged,
        injected := s.injected }

/-- The scanner run over a whole output stream, from the initial state;
the stream ends when `ReadByte` fails, which exits the loop. -/
def scanStream (pass : List Char) (bytes : List Char) : ScanState :=
  bytes.foldl (scanStep pass) initScanState

/-- The scripted output stream of the spec's testable property: the
literal sudo prompt with no further output. -/
def sudoPromptStream : List Char := "[sudo] password for user: ".data

/-- How often the scanner's in-progress line matches the prompt pattern
over a byte stream, starting from the given line buffer: one count per
byte whose arrival makes the line start with the prompt prelude and end
with `": "`.  The scanner's branching never depends on the secret, so
this counts its injections. -/
def scanCount (line : List Char) : List Char → Nat
  | [] => 0
  | b :: bs =>
    if b = '\n' then scanCount [] bs
    else
      let l := line ++ [b]
      (if sudoPromptPat.isPrefixOf l && sudoPromptTailPat.isSuffixOf l
        then 1 else 0) + scanCount l bs

/-! ### Terminal modes (ssh.go:446-449 and ssh.go:255-257)

`ssh.TerminalModes` is a map from opcode to argument.  The opcodes used
by the source, with their values from golang.org/x/crypto/ssh. -/

/-- Terminal mode opcode `ssh.ECHO`. -/
def ECHO : Nat := 53

/-- Terminal mode opcode `ssh.TTY_OP_ISPEED`. -/
def TTY_OP_ISPEED : Nat := 128

/-- Terminal mode opcode `ssh.TTY_OP_OSPEED`. -/
def TTY_OP_OSPEED : Nat := 129

/-- The terminal modes `RunCommand` passes to `RequestPty` in interactive
relay mode (ssh.go:446-449): input and output speed only. -/
def runCommandPtyModes : List (Nat × Nat) :=
  [(TTY_OP_ISPEED, 14400), (TTY_OP_OSPEED, 14400)]

/-- The terminal modes `copySshKeys` passes to `RequestPty`
(ssh.go:255-257): echo suppressed. -/
def copySshKeysPtyModes : List (Nat × Nat) := [(ECHO, 0)]

/-! ### RunCommand (ssh.go:428-502)

The Go function returns only an `error`; everything else it does is a
side effect.  A `RemoteSession` captures the behaviour of the remote
command for one run: the bytes it writes to the session output and its
exit status.  `session.Run` returns nil on exit status 0 and an
`ssh.ExitError` carrying the status otherwise. -/

/-- Behaviour of the remote command during one session: its output bytes
and its exit status. -/
structure RemoteSession where
  outputBytes : List Char
  exitCode : Nat
deriving DecidableEq

/-- The error value `RunCommand` returns: `remoteCommandError e` stands
for the `ssh.ExitError` with exit status `e` that `session.Run` returns
for a non-zero remote exit. -/
inductive RunError where
  | remoteCommandError (exitCode : Nat)
deriving DecidableEq

/-- The result of `session.Run` (ssh.go:500) for a command that runs to
completion with the given exit status. -/
def sessionRunErr (sess : RemoteSession) : Option RunError :=
  if sess.exitCode = 0 then none
  else some (.remoteCommandError sess.exitCode)

/-- One run of `RunCommand`: the Go return value `err` plus the
observable side effects of the run.  `stdoutStreamed` is what was
written to the local standard output (batch mode sets
`session.Stdout = os.Stdout`, ssh.go:497); `logged` and `injected` are
the relay scanner's effects; `ptyModes` is the argument of the
`RequestPty` call when one was made. -/
structure RunResult where
  err : Option RunError
  stdoutStreamed : List Char
  logged : List (List Char)
  injected : List (List Char)
  ptyModes : Option (List (Nat × Nat))
deriving DecidableEq

/-- `RunCommand(cmd, sudoPass)` (ssh.go:428-502): when `sudoPass` is not
the empty string, request a pseudo-terminal with the baud-rate modes and
run the relay scanner concurrently with `session.Run` (interactive relay
mode); otherwise stream output to the local standard output (batch
mode).  The return value is `session.Run`'s error in both modes. -/
def runCommand (cmd : List Char) (sudoPass : List Char)
    (sess : RemoteSession) : RunResult :=
  if sudoPass ≠ [] then
    let st := scanStream sudoPass sess.outputBytes
    { err := sessionRunErr sess, stdoutStreamed := [],
      logged := st.logged, injected := st.injected,
      ptyModes := some runCommandPtyModes }
  else
    { err := sessionRunErr sess, stdoutStreamed := sess.outputBytes,
      logged := [], injected := [], ptyModes := none }

/-! ### Trust-on-first-use ledger (ssh.go:142-209)

The ledger (known_hosts file) is a character string.  `knownhosts.Line`
formats an entry as `hostname keytype base64key` with no trailing
newline; `knownHostContains` is a substring test; `appendToKnownHosts`
opens the file with `O_APPEND` and writes the line. -/

/-- `knownhosts.Line([]string{hostname}, key)` (ssh.go:185) for a single
already-normalized address: the hostname, the key type and the base64
key material separated by single spaces, with no trailing newline. -/
def knownHostsLine (hostname keyType keyBase64 : List Char) : List Char :=
  hostname ++ [' '] ++ keyType ++ [' '] ++ keyBase64

/-- `knownHostContains` (ssh.go:142-151): a substring test of the line
against the whole ledger contents. -/
def knownHostContains (ledger line : List Char) : Bool :=
  decide (line <:+: ledger)

/-- `appendToKnownHosts` (ssh.go:153-167): append the line's bytes at
the end of the ledger (`O_APPEND|O_WRONLY` followed by `WriteString`). -/
def appendToKnownHosts (ledger line : List Char) : List Char :=
  ledger ++ line

/-- Outcome of the operator prompt `prompt.Run()` (ssh.go:194): either
an answer — the `promptui.Select` offers exactly `yes` and `no` — or a
prompt I/O failure. -/
inductive PromptOutcome where
  | answer (yes : Bool)
  | ioError
deriving DecidableEq

/-- The error `PromptAtKey` returns on a reject path. -/
inductive VerifyError where
  | promptFailed
  | userRejected
deriving DecidableEq

/-- Result of one `PromptAtKey` call: the returned error if any, the
ledger contents after the call, and how many operator prompts were
issued during the call. -/
structure VerifyResult where
  err : Option VerifyError
  ledger : List Char
  prompts : Nat
deriving DecidableEq

/-- `PromptAtKey` (ssh.go:184-209): print the fingerprint and prompt the
operator first, unconditionally; on prompt failure return that error; on
answer `no` return a rejection error; on answer `yes` check the ledger
and append the line when it is absent. -/
def promptAtKey (ledger line : List Char) (outcome : PromptOutcome) :
    VerifyResult :=
  match outcome with
  | .ioError => ⟨some .promptFailed, ledger, 1⟩
  | .answer false => ⟨some .userRejected, ledger, 1⟩
  | .answer true =>
    if knownHostContains ledger line then ⟨none, ledger, 1⟩
    else ⟨none, appendToKnownHosts ledger line, 1⟩

/-- `PromptAtKey` with the ambient process environment made explicit as
a parameter.  The body of `PromptAtKey` (ssh.go:184-209) performs no
environment lookup of any kind — no auto-accept override is consulted —
so the parameter is unused; this definition makes that absence
provable. -/
def promptAtKeyWithEnv (env : List (List Char × List Char))
    (ledger line : List Char) (outcome : PromptOutcome) : VerifyResult :=
  promptAtKey ledger line outcome

/-! ### InitSsh (ssh.go:75-140)

The state of the ssh-keys directory: each file is `none` when absent and
`some contents` when present.  A `KeyPairGen` is the freshly generated
key pair an error-free run of `generatePrivateKey`, `generatePublicKey`
and `encodePrivateKeyToPEM` produces. -/

/-- The contents of the ssh-keys directory. -/
structure SshDirState where
  privateKey : Option (List Char)
  publicKey : Option (List Char)
  knownHosts : Option (List Char)
deriving DecidableEq

/-- A freshly generated key pair: the PEM-encoded private key and the
authorized-keys form of the public key. -/
structure KeyPairGen where
  privPem : List Char
  pubBytes : List Char
deriving DecidableEq

/-- `InitSsh` (ssh.go:75-140) on an error-free run: if either key file
is missing, generate a pair and write both files; then create an empty
known_hosts file if it is missing. -/
def initSsh (gen : KeyPairGen) (s : SshDirState) : SshDirState :=
  let s₁ :=
    if s.privateKey.isNone || s.publicKey.isNone then
      { s with privateKey := some gen.privPem,
               publicKey := some gen.pubBytes }
    else s
  if s₁.knownHosts.isNone then { s₁ with knownHosts := some [] } else s₁

/-! ### PutDir and PutFile (sftp.go:14-55)

A local source tree is a file with contents or a directory with named
children; `filepath.Walk` visits the root first and then each child
subtree in order, so the walk lists every entry with its relative path
(as a component list) parent before child.  `path.Join(dst, ".")`, the
destination of the root entry, is `dst` itself, so the root's relative
path is the empty component list.  The remote filesystem maps an
absolute path to `none` (absent), `some none` (directory) or
`some (some c)` (file with contents `c`). -/

/-- A local source tree. -/
inductive FsTree where
  | file (content : List Char)
  | dir (children : List (List Char × FsTree))

mutual

/-- The entries `filepath.Walk` (sftp.go:34) presents to the callback:
relative path components paired with `none` for a directory and
`some c` for a file with contents `c`, in parent-before-child order. -/
def walk : FsTree → List (List (List Char) × Option (List Char))
  | .file c => [([], some c)]
  | .dir cs => ([], none) :: walkChildren cs

/-- The walk entries contributed by a list of named child subtrees. -/
def walkChildren :
    List (List Char × FsTree) → List (List (List Char) × Option (List Char))
  | [] => []
  | (n, t) :: rest =>
    (walk t).map (fun e => (n :: e.1, e.2)) ++ walkChildren rest

end

/-- One remote operation issued by the `PutDir` walk callback
(sftp.go:41-45): `c.MkdirAll` for a directory entry, `PutFile` for a
file entry. -/
inductive RemoteOp where
  | mkdirAll (p : List (List Char))
  | putFile (p : List (List Char)) (content : List Char)
deriving DecidableEq

/-- The remote operation for one walk entry: the destination path is
`path.Join(dst, relPath)` (sftp.go:38-39). -/
def entryOp (dst : List (List Char))
    (e : List (List Char) × Option (List Char)) : RemoteOp :=
  match e.2 with
  | none => .mkdirAll (dst ++ e.1)
  | some c => .putFile (dst ++ e.1) c

/-- `PutDir(src, dst)` (sftp.go:33-55) as the ordered list of remote
operations its walk issues. -/
def putDirOps (dst : List (List Char)) (t : FsTree) : List RemoteOp :=
  (walk t).map (entryOp dst)

/-- The remote operations contributed by a list of named child
subtrees of the walked root. -/
def childrenOps (dst : List (List Char))
    (cs : List (List Char × FsTree)) : List RemoteOp :=
  (walkChildren cs).map (entryOp dst)

/-- The remote filesystem: `none` absent, `some none` a directory,
`some (some c)` a file with contents `c`. -/
def RemoteFs : Type := List (List Char) → Option (Option (List Char))

/-- Effect of one remote operation: `MkdirAll p` creates `p` and every
ancestor of `p` as a directory and is content with paths that already
exist ("already exists" is not an error); `PutFile p c` creates or
truncates the file at `p` and writes the source bytes. -/
def applyOp (fs : RemoteFs) : RemoteOp → RemoteFs
  | .mkdirAll p => fun q => if q <+: p then some none else fs q
  | .putFile p c => fun q => if q = p then some (some c) else fs q

/-- Effect of a list of remote operations, applied left to right. -/
def applyOps (fs : RemoteFs) : List RemoteOp → RemoteFs
  | [] => fs
  | op :: rest => applyOps (applyOp fs op) rest

/-- Left-to-right check that every `putFile` is preceded by a `mkdirAll`
of its parent directory: `created` accumulates the explicitly created
directories. -/
def checkOrder (created : List (List (List Char))) : List RemoteOp → Bool
  | [] => true
  | .mkdirAll p :: rest => checkOrder (p :: created) rest
  | .putFile p _ :: rest =>
    decide (p.dropLast ∈ created) && checkOrder created rest

/-- The directories explicitly created by a list of remote operations,
added to `created`. -/
def accCreated (created : List (List (List Char))) :
    List RemoteOp → List (List (List Char))
  | [] => created
  | .mkdirAll p :: rest => accCreated (p :: created) rest
  | .putFile _ _ :: rest => accCreated created rest

/-- Check that a list of names has no duplicate. -/
def nodupB : List (List Char) → Bool
  | [] => true
  | n :: rest => !(decide (n ∈ rest)) && nodupB rest

mutual

/-- A source tree an operating system directory walk can produce:
sibling names are distinct at every level. -/
def wfB : FsTree → Bool
  | .file _ => true
  | .dir cs => nodupB (cs.map Prod.fst) && wfChildrenB cs

/-- `wfB` over a list of named child subtrees. -/
def wfChildrenB : List (List Char × FsTree) → Bool
  | [] => true
  | (_, t) :: rest => wfB t && wfChildrenB rest

end

/-- The children of the source tree of the spec's testable property:
`{a/, a/f1.txt, b/c/, b/c/f2.txt}`. -/
def exampleChildren : List (List Char × FsTree) :=
  [("a".data, .dir [("f1.txt".data, .file "F1".data)]),
   ("b".data, .dir [("c".data, .dir [("f2.txt".data, .file "F2".data)])])]

/-- The source tree of the spec's testable property. -/
def exampleTree : FsTree := .dir exampleChildren

/-- A concrete formatted ledger entry, used for concrete evaluations. -/
def exLine1 : List Char := knownHostsLine "h1".data "ssh-rsa".data "AAAA".data

/-- A second concrete formatted ledger entry, for a different host. -/
def exLine2 : List Char := knownHostsLine "h2".data "ssh-rsa".data "BBBB".data

/-- The empty remote filesystem, used for concrete evaluations. -/
def emptyRemoteFs : RemoteFs := fun _ => none

/-! ## Theorems -/

/-- The line buffer, the accumulated output and the logged lines after
one scanner step do not depend on the registered secret: only the
`injected` component mentions it. -/
theorem scanStep_secret_agnostic (p₁ p₂ : List Char) (s₁ s₂ : ScanState)
    (b : Char) (h1 : s₁.line = s₂.line) (h2 : s₁.output = s₂.output)
    (h3 : s₁.logged = s₂.logged) :
    (scanStep p₁ s₁ b).line = (scanStep p₂ s₂ b).line ∧
    (scanStep p₁ s₁ b).output = (scanStep p₂ s₂ b).output ∧
    (scanStep p₁ s₁ b).logged = (scanStep p₂ s₂ b).logged := by
  obtain ⟨l₁, o₁, g₁, i₁⟩ := s₁
  obtain ⟨l₂, o₂, g₂, i₂⟩ := s₂
  simp only at h1 h2 h3
  subst h1 h2 h3
  by_cases hb : b = '\n'
  · simp [scanStep, hb]
  · by_cases hm :
      (sudoPromptPat.isPrefixOf (l₁ ++ [b]) &&
        sudoPromptTailPat.isSuffixOf (l₁ ++ [b])) = true
    · simp [scanStep, hb, hm]
    · simp [scanStep, hb, hm]

/-- The scanner's line, output and logged components after any stream
do not depend on the registered secret. -/
theorem scanFold_secret_agnostic (p₁ p₂ : List Char) (bytes : List Char) :
    ∀ s₁ s₂ : ScanState, s₁.line = s₂.line → s₁.output = s₂.output →
    s₁.logged = s₂.logged →
    (bytes.foldl (scanStep p₁) s₁).line =
      (bytes.foldl (scanStep p₂) s₂).line ∧
    (bytes.foldl (scanStep p₁) s₁).output =
      (bytes.foldl (scanStep p₂) s₂).output ∧
    (bytes.foldl (scanStep p₁) s₁).logged =
      (bytes.foldl (scanStep p₂) s₂).logged := by
  induction bytes with
  | nil => exact fun s₁ s₂ h1 h2 h3 => ⟨h1, h2, h3⟩
  | cons b bs ih =>
    intro s₁ s₂ h1 h2 h3
    simp only [List.foldl_cons]
    have h := scanStep_secret_agnostic p₁ p₂ s₁ s₂ b h1 h2 h3
    exact ih _ _ h.1 h.2.1 h.2.2

/-- The scanner's writes to the session input stream are the secret
followed by a newline, written once per prompt match of the stream. -/
theorem scanFold_injected_replicate (pass : List Char) (bytes : List Char) :
    ∀ s : ScanState, (bytes.foldl (scanStep pass) s).injected =
      s.injected ++
        List.replicate (scanCount s.line bytes) (pass ++ ['\n']) := by
  induction bytes with
  | nil => intro s; simp [scanCount]
  | cons b bs ih =>
    intro s
    simp only [List.foldl_cons]
    by_cases hb : b = '\n'
    · rw [ih]
      simp [scanStep, scanCount, hb]
    · by_cases hm :
        (sudoPromptPat.isPrefixOf (s.line ++ [b]) &&
          sudoPromptTailPat.isSuffixOf (s.line ++ [b])) = true
      · rw [ih]
        simp [scanStep, scanCount, hb, hm, Nat.one_add,
          List.replicate_succ, List.append_assoc]
      · rw [ih]
        simp [scanStep, scanCount, hb, hm]

/-- C1: in interactive relay mode, for the output stream consisting of
the bytes of the literal text `"[sudo] password for user: "` followed by
no further output, the byte scanner writes the registered secret
followed by a newline to the session input stream exactly once — the
list of writes is exactly the one-element list holding the secret and
the newline. -/
theorem c1_relay_injects_secret_once (pass : List Char) :
    (scanStream pass sudoPromptStream).injected = [pass ++ ['\n']] ∧
    (scanStream pass sudoPromptStream).injected.length = 1 := by
  have h := scanFold_injected_replicate pass sudoPromptStream initScanState
  have hc : scanCount initScanState.line sudoPromptStream = 1 := by decide
  rw [hc] at h
  have h1 : (scanStream pass sudoPromptStream).injected = [pass ++ ['\n']] := by
    simpa [scanStream, initScanState] using h
  exact ⟨h1, by rw [h1]; rfl⟩

/-- C2 counterexample: the pseudo-terminal of `RunCommand`'s interactive
relay mode is requested with baud-rate modes only: the `ECHO` opcode is
not in its terminal modes at all, in particular echo is not disabled
there (the modes map is not the echo-suppressing one used by
`copySshKeys`). -/
theorem c2_echo_not_disabled_cex :
    (runCommand "sudo bash setup.sh".data "pw".data ⟨[], 0⟩).ptyModes =
      some runCommandPtyModes ∧
    runCommandPtyModes.lookup ECHO = none ∧
    ECHO ∉ runCommandPtyModes.map Prod.fst ∧
    copySshKeysPtyModes.lookup ECHO = some 0 := by
  refine ⟨rfl, by decide, by decide, by decide⟩

/-- C2 amended: `RunCommand`'s relay pseudo-terminal is requested with
only the two baud-rate modes and does not disable echo; the explicit
`ECHO 0` suppression appears only in `copySshKeys`'s terminal modes.
Independently of that, the logged lines and forwarded output bytes of
the scanner are a function of the output stream alone, so two runs with
the same output stream differing only in the secret log identically. -/
theorem c2_relay_log_secret_independent (p₁ p₂ out : List Char) :
    runCommandPtyModes.lookup ECHO = none ∧
    (ECHO, 0) ∈ copySshKeysPtyModes ∧
    (scanStream p₁ out).logged = (scanStream p₂ out).logged ∧
    (scanStream p₁ out).output = (scanStream p₂ out).output := by
  have h := scanFold_secret_agnostic p₁ p₂ out initScanState initScanState
    rfl rfl rfl
  exact ⟨by decide, by decide, h.2.2, h.2.1⟩

/-- C7 counterexample: in batch mode the captured combined output is not
part of `RunCommand`'s return value — two runs whose remote commands
emit different output but exit with status 0 return the identical value
`none`, so no output buffer is returned. -/
theorem c7_batch_output_not_returned_cex :
    (runCommand "ls -lh /".data [] ⟨"output-A".data, 0⟩).err = none ∧
    (runCommand "ls -lh /".data [] ⟨"output-B".data, 0⟩).err = none ∧
    "output-A".data ≠ "output-B".data := by
  refine ⟨rfl, rfl, by decide⟩

/-- C7 amended: batch-mode `RunCommand` runs the command to completion
and streams the remote output to the local standard output instead of
capturing and returning it; its sole return value is the error, where a
remote exit code of 1 surfaces as the exit error carrying code 1 and
exit code 0 surfaces as no error — distinguishable values — and a
non-zero exit is never escalated to a connection-level failure. -/
theorem c7_batch_exit_status_distinguishable (cmd out : List Char) :
    (runCommand cmd [] ⟨out, 0⟩).err = none ∧
    (runCommand cmd [] ⟨out, 1⟩).err =
      some (RunError.remoteCommandError 1) ∧
    some (RunError.remoteCommandError 1) ≠ (none : Option RunError) ∧
    (runCommand cmd [] ⟨out, 0⟩).stdoutStreamed = out ∧
    (runCommand cmd [] ⟨out, 1⟩).stdoutStreamed = out := by
  refine ⟨rfl, rfl, by decide, rfl, rfl⟩

/-- C10: the interactive relay — pseudo-terminal allocation, byte
scanning and secret injection — is active exactly when the supplied
secret is a non-empty string; with the empty secret the command runs in
batch mode, its output is streamed to the local standard output, and no
prompt injection is possible.  The empty string can therefore never act
as a relay secret. -/
theorem c10_relay_iff_nonempty_secret (cmd pass : List Char)
    (sess : RemoteSession) :
    ((runCommand cmd pass sess).ptyModes.isSome ↔ pass ≠ []) ∧
    ((runCommand cmd pass sess).injected ≠ [] → pass ≠ []) ∧
    (runCommand cmd [] sess).injected = [] ∧
    (runCommand cmd [] sess).logged = [] ∧
    (runCommand cmd [] sess).ptyModes = none ∧
    (runCommand cmd [] sess).stdoutStreamed = sess.outputBytes := by
  by_cases hp : pass = []
  · subst hp
    simp [runCommand]
  · simp [runCommand, hp]

/-- C3 counterexample: on a `Verify` call where the ledger already
contains the presented entry, the operator is prompted anyway — the call
issues one prompt, not zero, and an operator rejection even fails the
call although the key is already trusted.  The ledger is the entry
itself, so `knownHostContains` holds. -/
theorem c3_known_key_still_prompts_cex :
    knownHostContains exLine1 exLine1 = true ∧
    (promptAtKey exLine1 exLine1 (.answer true)).prompts = 1 ∧
    promptAtKey exLine1 exLine1 (.answer false) =
      ⟨some .userRejected, exLine1, 1⟩ := by
  refine ⟨by decide, rfl, rfl⟩

/-- C3 amended: on a `Verify` call where the ledger already contains
the entry for the presented key, the call makes zero changes to the
ledger, but it does not accept silently: it still issues exactly one
operator prompt, and it accepts exactly when the operator answers
affirmatively. -/
theorem c3_known_key_zero_ledger_changes (ledger line : List Char)
    (outcome : PromptOutcome)
    (hknown : knownHostContains ledger line = true) :
    (promptAtKey ledger line outcome).ledger = ledger ∧
    (promptAtKey ledger line outcome).prompts = 1 ∧
    (promptAtKey ledger line (.answer true)).err = none := by
  refine ⟨?_, ?_, by simp [promptAtKey, hknown]⟩ <;>
    rcases outcome with yes | _ <;> first
      | rfl
      | rcases yes with _ | _ <;> simp [promptAtKey, hknown]

/-- C3 amended claim witness at a concrete known entry. -/
theorem c3_known_key_zero_ledger_changes_witness :
    (promptAtKey exLine1 exLine1 (.answer false)).ledger = exLine1 ∧
    (promptAtKey exLine1 exLine1 (.answer false)).prompts = 1 ∧
    (promptAtKey exLine1 exLine1 (.answer true)).err = none :=
  c3_known_key_zero_ledger_changes exLine1 exLine1 (.answer false)
    (by decide)

/-- C4: on a `Verify` call for a never-seen entry, any prompt outcome
other than the explicit affirmative answer — the answer `no` or a prompt
I/O failure — returns an error, so the connection fails, and leaves the
ledger byte-identical. -/
theorem c4_reject_leaves_ledger_unchanged (ledger line : List Char)
    (outcome : PromptOutcome)
    (hnew : knownHostContains ledger line = false)
    (hnotyes : outcome ≠ .answer true) :
    (promptAtKey ledger line outcome).err.isSome = true ∧
    (promptAtKey ledger line outcome).ledger = ledger := by
  rcases outcome with yes | _
  · rcases yes with _ | _
    · exact ⟨rfl, rfl⟩
    · exact absurd rfl hnotyes
  · exact ⟨rfl, rfl⟩

/-- C4 witness: concrete rejection of a never-seen key on the empty
ledger. -/
theorem c4_reject_leaves_ledger_unchanged_witness :
    (promptAtKey [] exLine1 (.answer false)).err.isSome = true ∧
    (promptAtKey [] exLine1 (.answer false)).ledger = [] :=
  c4_reject_leaves_ledger_unchanged [] exLine1 (.answer false)
    (by decide) (by decide)

/-- C5: two acceptances of two distinct never-seen keys, starting from
the empty ledger `InitSsh` creates.  Each call appends the formatted
entry, but `knownhosts.Line` carries no trailing newline and
`appendToKnownHosts` adds none, so after the second acceptance the
ledger holds both entries with zero newline characters — one physical
line — instead of gaining one new line per acceptance. -/
theorem c5_append_without_newline_eval :
    (promptAtKey [] exLine1 (.answer true)).ledger = exLine1 ∧
    (promptAtKey exLine1 exLine2 (.answer true)).ledger =
      exLine1 ++ exLine2 ∧
    (exLine1 ++ exLine2).count '\n' = 0 ∧
    exLine1 ≠ exLine2 := by
  refine ⟨by decide, by decide, by decide, by decide⟩

/-- C6 counterexample: there is no non-interactive auto-accept override
in the code.  Even with an auto-accept flag set in the process
environment, a `Verify` call on a never-seen key still issues an
operator prompt, and when no operator is available (the prompt fails)
the call rejects instead of accepting. -/
theorem c6_no_auto_accept_override_cex :
    promptAtKeyWithEnv [("AUTO_ACCEPT_HOSTKEYS".data, "1".data)] []
        exLine1 .ioError =
      ⟨some .promptFailed, [], 1⟩ := by
  rfl

/-- C6 amended: `PromptAtKey` consults no environment state — its
outcome is independent of the process environment — and it always
issues exactly one operator prompt; a never-seen key is accepted only
through an explicit affirmative operator answer. -/
theorem c6_env_independent_always_prompts
    (env₁ env₂ : List (List Char × List Char)) (ledger line : List Char)
    (outcome : PromptOutcome) :
    promptAtKeyWithEnv env₁ ledger line outcome =
      promptAtKeyWithEnv env₂ ledger line outcome ∧
    (promptAtKeyWithEnv env₁ ledger line outcome).prompts = 1 := by
  refine ⟨rfl, ?_⟩
  rcases outcome with yes | _
  · rcases yes with _ | _
    · rfl
    · simp only [promptAtKeyWithEnv, promptAtKey]
      split <;> rfl
  · rfl

/-- C8: `InitSsh` is idempotent and regenerates both-or-neither: a
second call in sequence changes no file; when both key files exist the
call leaves them untouched; and when either key file is missing the
call writes both the private and the public key file of the fresh
pair. -/
theorem c8_initSsh_idempotent_both_or_neither (g₁ g₂ : KeyPairGen)
    (s : SshDirState) :
    initSsh g₂ (initSsh g₁ s) = initSsh g₁ s ∧
    (s.privateKey.isSome → s.publicKey.isSome →
      (initSsh g₁ s).privateKey = s.privateKey ∧
      (initSsh g₁ s).publicKey = s.publicKey) ∧
    ((s.privateKey = none ∨ s.publicKey = none) →
      (initSsh g₁ s).privateKey = some g₁.privPem ∧
      (initSsh g₁ s).publicKey = some g₁.pubBytes) := by
  obtain ⟨p, q, k⟩ := s
  rcases p with _ | p <;> rcases q with _ | q <;> rcases k with _ | k <;>
    simp [initSsh]

/-- Applying a concatenation of remote operations applies the first
batch and then the second. -/
theorem applyOps_append (fs : RemoteFs) (xs ys : List RemoteOp) :
    applyOps fs (xs ++ ys) = applyOps (applyOps fs xs) ys := by
  induction xs generalizing fs with
  | nil => rfl
  | cons op rest ih => simp [applyOps, ih]

/-- `checkOrder` over a concatenation: the first batch must check out,
and the second checks out against the directories accumulated so far. -/
theorem checkOrder_append (created : List (List (List Char)))
    (xs ys : List RemoteOp) :
    checkOrder created (xs ++ ys) =
      (checkOrder created xs && checkOrder (accCreated created xs) ys) := by
  induction xs generalizing created with
  | nil => simp [checkOrder, accCreated]
  | cons op rest ih =>
    cases op with
    | mkdirAll p => simp [checkOrder, accCreated, ih]
    | putFile p c => simp [checkOrder, accCreated, ih, Bool.and_assoc]

/-- A directory recorded as created stays recorded. -/
theorem mem_accCreated (p : List (List Char)) (xs : List RemoteOp) :
    ∀ created, p ∈ created → p ∈ accCreated created xs := by
  induction xs with
  | nil => exact fun _ h => h
  | cons op rest ih =>
    intro created h
    cases op with
    | mkdirAll q => exact ih _ (List.mem_cons_of_mem _ h)
    | putFile q c => exact ih _ h

/-- The operations of `PutDir` on a single file: one `PutFile`. -/
theorem putDirOps_file (dst : List (List Char)) (c : List Char) :
    putDirOps dst (.file c) = [.putFile dst c] := by
  simp [putDirOps, walk, entryOp]

/-- The operations of `PutDir` on a directory: create the destination
directory, then the children's operations. -/
theorem putDirOps_dir (dst : List (List Char))
    (cs : List (List Char × FsTree)) :
    putDirOps dst (.dir cs) = .mkdirAll dst :: childrenOps dst cs := by
  simp [putDirOps, walk, childrenOps, entryOp]

/-- The children's operations of an empty child list. -/
theorem childrenOps_nil (dst : List (List Char)) :
    childrenOps dst [] = [] := by
  simp [childrenOps, walkChildren]

/-- The children's operations of a non-empty child list: the whole
subtree of the first child, rebased at its name, then the rest. -/
theorem childrenOps_cons (dst : List (List Char)) (n : List Char)
    (t : FsTree) (rest : List (List Char × FsTree)) :
    childrenOps dst ((n, t) :: rest) =
      putDirOps (dst ++ [n]) t ++ childrenOps dst rest := by
  simp only [childrenOps, walkChildren, List.map_append, List.map_map,
    putDirOps]
  congr 1
  apply List.map_congr_left
  intro e _
  rcases e with ⟨rel, e⟩
  rcases e with _ | c <;>
    simp [entryOp, Function.comp, List.append_assoc]

mutual

/-- Every `PutFile` in the operations of a `PutDir` walk is preceded by
the `MkdirAll` of its parent directory, given that a file at the walk
root itself already has its parent created. -/
theorem putDirOrdTree (t : FsTree) (dst : List (List Char))
    (created : List (List (List Char)))
    (hfile : ∀ c, t = .file c → dst.dropLast ∈ created) :
    checkOrder created (putDirOps dst t) = true := by
  cases t with
  | file c =>
    have h := hfile c rfl
    simp [putDirOps_file, checkOrder, h]
  | dir cs =>
    rw [putDirOps_dir]
    simp only [checkOrder]
    exact putDirOrdChildren cs dst (dst :: created)
      (List.mem_cons_self dst created)

/-- Ordering over a child list: each child subtree's operations check
out once the parent destination directory is recorded as created. -/
theorem putDirOrdChildren (cs : List (List Char × FsTree))
    (dst : List (List Char)) (created : List (List (List Char)))
    (hdst : dst ∈ created) :
    checkOrder created (childrenOps dst cs) = true := by
  cases cs with
  | nil => simp [childrenOps_nil, checkOrder]
  | cons hd rest =>
    obtain ⟨n, t⟩ := hd
    rw [childrenOps_cons, checkOrder_append]
    have h1 : checkOrder created (putDirOps (dst ++ [n]) t) = true :=
      putDirOrdTree t (dst ++ [n]) created (by
        intro c _
        rw [List.dropLast_concat]
        exact hdst)
    have h2 : checkOrder (accCreated created (putDirOps (dst ++ [n]) t))
        (childrenOps dst rest) = true :=
      putDirOrdChildren rest dst _ (mem_accCreated dst _ created hdst)
    simp [h1, h2]

end

/-- Unfolding of `nodupB` on a non-empty list. -/
theorem nodupB_cons_iff (n : List Char) (l : List (List Char)) :
    nodupB (n :: l) = true ↔ (n ∉ l ∧ nodupB l = true) := by
  simp [nodupB]

/-- A singleton list is a prefix of a non-empty list exactly when it is
its head. -/
theorem singleton_prefix_head {α : Type} {a b : α} {l : List α}
    (h : [a] <+: b :: l) : a = b := by
  rcases List.prefix_cons_iff.1 h with h | ⟨t', ht, _⟩
  · simp at h
  · exact (List.cons.injEq a [] b t').mp ht |>.1

mutual

/-- Replaying the operations of a `PutDir` walk of a well-formed tree
reproduces every walked entry at its destination path with identical
contents, touches no path unrelated to the destination, and turns
strict ancestors of the destination at most into directories. -/
theorem putDirSemTree (t : FsTree) (dst : List (List Char))
    (fs : RemoteFs) (hwf : wfB t = true) :
    (∀ rel e, (rel, e) ∈ walk t →
      applyOps fs (putDirOps dst t) (dst ++ rel) = some e) ∧
    (∀ q, ¬ q <+: dst → ¬ dst <+: q →
      applyOps fs (putDirOps dst t) q = fs q) ∧
    (∀ q, q <+: dst → q ≠ dst →
      applyOps fs (putDirOps dst t) q = some none ∨
      applyOps fs (putDirOps dst t) q = fs q) := by
  cases t with
  | file c =>
    rw [putDirOps_file]
    refine ⟨?_, ?_, ?_⟩
    · intro rel e hmem
      simp only [walk, List.mem_singleton, Prod.mk.injEq] at hmem
      obtain ⟨h1, h2⟩ := hmem
      subst h1 h2
      simp [applyOps, applyOp]
    · intro q _ hq2
      have hne : q ≠ dst := fun h => hq2 (h ▸ List.prefix_rfl)
      simp [applyOps, applyOp, hne]
    · intro q _ hne
      right
      simp [applyOps, applyOp, hne]
  | dir cs =>
    rw [putDirOps_dir]
    simp only [wfB, Bool.and_eq_true] at hwf
    simp only [applyOps]
    have hfs1 : ∀ q, applyOp fs (.mkdirAll dst) q =
        if q <+: dst then some none else fs q := fun q => rfl
    have H := putDirSemChildren cs dst (applyOp fs (.mkdirAll dst))
      hwf.2 hwf.1
    refine ⟨?_, ?_, ?_⟩
    · intro rel e hmem
      simp only [walk, List.mem_cons, Prod.mk.injEq] at hmem
      rcases hmem with ⟨h1, h2⟩ | hmem
      · subst h1 h2
        rw [List.append_nil]
        rcases H.2.2 dst List.prefix_rfl with h | h
        · exact h
        · rw [h, hfs1]
          simp
      · exact H.1 rel e hmem
    · intro q hq1 hq2
      have hframe : ∀ n ∈ cs.map Prod.fst,
          ¬ q <+: dst ++ [n] ∧ ¬ dst ++ [n] <+: q := by
        intro n _
        constructor
        · intro h
          rcases List.prefix_concat_iff.1 h with h | h
          · exact hq2 (h ▸ List.prefix_append dst [n])
          · exact hq1 h
        · intro h
          exact hq2 ((List.prefix_append dst [n]).trans h)
      rw [H.2.1 q hframe, hfs1, if_neg hq1]
    · intro q hq _
      rcases H.2.2 q hq with h | h
      · exact Or.inl h
      · rw [h, hfs1, if_pos hq]
        exact Or.inl rfl

/-- `putDirSemTree` over a list of named child subtrees with distinct
names: every child entry is reproduced, paths unrelated to every child
destination are untouched, and ancestors of the parent destination are
at most turned into directories. -/
theorem putDirSemChildren (cs : List (List Char × FsTree))
    (dst : List (List Char)) (fs : RemoteFs)
    (hwf : wfChildrenB cs = true)
    (hnd : nodupB (cs.map Prod.fst) = true) :
    (∀ rel e, (rel, e) ∈ walkChildren cs →
      applyOps fs (childrenOps dst cs) (dst ++ rel) = some e) ∧
    (∀ q, (∀ n ∈ cs.map Prod.fst,
        ¬ q <+: dst ++ [n] ∧ ¬ dst ++ [n] <+: q) →
      applyOps fs (childrenOps dst cs) q = fs q) ∧
    (∀ q, q <+: dst →
      applyOps fs (childrenOps dst cs) q = some none ∨
      applyOps fs (childrenOps dst cs) q = fs q) := by
  cases cs with
  | nil =>
    rw [childrenOps_nil]
    exact ⟨fun rel e hmem => by simp [walkChildren] at hmem,
      fun q _ => rfl, fun q _ => Or.inr rfl⟩
  | cons hd rest =>
    obtain ⟨n, t⟩ := hd
    simp only [wfChildrenB, Bool.and_eq_true] at hwf
    simp only [List.map_cons] at hnd
    rw [nodupB_cons_iff] at hnd
    rw [childrenOps_cons]
    have T := putDirSemTree t (dst ++ [n]) fs hwf.1
    have R := putDirSemChildren rest dst
      (applyOps fs (putDirOps (dst ++ [n]) t)) hwf.2 hnd.2
    rw [applyOps_append]
    have hpres : ∀ rel' : List (List Char),
        applyOps (applyOps fs (putDirOps (dst ++ [n]) t))
          (childrenOps dst rest) ((dst ++ [n]) ++ rel') =
        applyOps fs (putDirOps (dst ++ [n]) t) ((dst ++ [n]) ++ rel') := by
      intro rel'
      apply R.2.1
      intro m hm
      have hnm : n ≠ m := fun h => hnd.1 (h ▸ hm)
      constructor
      · intro h
        rcases List.prefix_concat_iff.1 h with h | h
        · have h1 : dst ++ [n] <+: dst ++ [m] :=
            h ▸ List.prefix_append (dst ++ [n]) rel'
          have h2 := (List.prefix_append_right_inj dst).1 h1
          exact hnm (singleton_prefix_head h2)
        · exfalso
          have h1 := h.length_le
          have h2 := (List.prefix_append (dst ++ [n]) rel').length_le
          have h3 : (dst ++ [n]).length = dst.length + 1 := by simp
          omega
      · intro h
        rw [List.append_assoc] at h
        have h1 := (List.prefix_append_right_inj dst).1 h
        rw [List.singleton_append] at h1
        exact hnm (singleton_prefix_head h1).symm
    refine ⟨?_, ?_, ?_⟩
    · intro rel e hmem
      simp only [walkChildren, List.mem_append, List.mem_map] at hmem
      rcases hmem with ⟨⟨rel', e'⟩, hmem', heq⟩ | hmem
      · have h1 : n :: rel' = rel := congrArg Prod.fst heq
        have h2 : e' = e := congrArg Prod.snd heq
        subst h1
        subst h2
        rw [List.append_cons dst n rel']
        rw [hpres rel']
        exact T.1 rel' e' hmem'
      · exact R.1 rel e hmem
    · intro q hq
      simp only [List.map_cons, List.mem_cons] at hq
      have hq0 := hq n (Or.inl rfl)
      have hrest : ∀ m ∈ rest.map Prod.fst,
          ¬ q <+: dst ++ [m] ∧ ¬ dst ++ [m] <+: q :=
        fun m hm => hq m (Or.inr hm)
      rw [R.2.1 q hrest, T.2.1 q hq0.1 hq0.2]
    · intro q hq
      have hq1 : q <+: dst ++ [n] := hq.trans (List.prefix_append dst [n])
      have hq2 : q ≠ dst ++ [n] := by
        intro h
        have h3 := hq.length_le
        rw [h] at h3
        simp at h3
      rcases R.2.2 q hq with h | h
      · exact Or.inl h
      · rw [h]
        rcases T.2.2 q hq1 hq2 with h' | h'
        · exact Or.inl h'
        · exact Or.inr h'

end

/-- C9: for every well-formed source tree, `PutDir` visits entries in
parent-before-child order so that each remote directory is created
before any file inside it (`checkOrder` holds from an empty created
set), the destination reproduces the identical relative structure with
byte-identical file contents (every walked entry appears at its
destination path with its walked contents), and remote directory
creation is idempotent — repeating a `MkdirAll` changes nothing, so
"already exists" is not an error. -/
theorem c9_putDir_structure_and_order (cs : List (List Char × FsTree))
    (dst : List (List Char)) (fs : RemoteFs)
    (hwf : wfB (.dir cs) = true) :
    checkOrder [] (putDirOps dst (.dir cs)) = true ∧
    (∀ rel e, (rel, e) ∈ walk (.dir cs) →
      applyOps fs (putDirOps dst (.dir cs)) (dst ++ rel) = some e) ∧
    (∀ fs' p, applyOp (applyOp fs' (.mkdirAll p)) (.mkdirAll p) =
      applyOp fs' (.mkdirAll p)) := by
  refine ⟨?_, (putDirSemTree (.dir cs) dst fs hwf).1, ?_⟩
  · exact putDirOrdTree (.dir cs) dst [] (fun c h => nomatch h)
  · intro fs' p
    funext q
    by_cases h : q <+: p <;> simp [applyOp, h]

/-- C9 witness: the spec's example tree `{a/, a/f1.txt, b/c/, b/c/f2.txt}`
uploaded to the destination directory `root` over the empty remote
filesystem. -/
theorem c9_putDir_structure_and_order_witness :
    checkOrder [] (putDirOps ["root".data] (.dir exampleChildren)) = true ∧
    (∀ rel e, (rel, e) ∈ walk (.dir exampleChildren) →
      applyOps emptyRemoteFs (putDirOps ["root".data] (.dir exampleChildren))
        (["root".data] ++ rel) = some e) ∧
    (∀ fs' p, applyOp (applyOp fs' (.mkdirAll p)) (.mkdirAll p) =
      applyOp fs' (.mkdirAll p)) :=
  c9_putDir_structure_and_order exampleChildren ["root".data] emptyRemoteFs
    (by simp only [exampleChildren, wfB, wfChildrenB, nodupB]; decide)

end Guardian
